import Mathlib

set_option maxRecDepth 10000

/-!
Verification development for the terminal Hangman game (`TerminalBased.py`).

The Python source is shallowly embedded: Python strings become Lean `String`s
(operated on through their underlying `List Char`, which matches Python's view
of a string as a sequence of characters), the Python `set` of guessed letters
becomes the list of its elements, and the game loop's state changes become explicit
functions on a `GameState` structure together with a `Reachable` predicate
generated by the loop's transitions.
-/

/-! ## Embedded Python string primitives

Python string operations used by the source, defined over the character list
of a Lean `String` so that everything computes by kernel reduction.
-/

/-- Python `str.ljust(n)`: pad on the right with spaces up to length `n`;
strings already at least `n` characters long are returned unchanged
(no truncation). -/
def pyLjust (s : String) (n : Nat) : String :=
  ⟨s.data ++ List.replicate (n - s.data.length) ' '⟩

/-- Python `'sep'.join(parts)` on character lists: the parts in order with
the separator between consecutive parts. -/
def pyJoinChars (sep : List Char) : List (List Char) → List Char
  | [] => []
  | [x] => x
  | x :: y :: rest => x ++ sep ++ pyJoinChars sep (y :: rest)

/-- Python `'sep'.join(parts)` on Lean `String`s. -/
def pyJoin (sep : String) (parts : List String) : String :=
  ⟨pyJoinChars sep.data (parts.map (·.data))⟩

/-- Python `str.upper()`, restricted to its ASCII behaviour (every character
appearing in this program is ASCII): each character `a`..`z` is mapped to
`A`..`Z` and every other character is left unchanged. -/
def pyUpper (s : String) : String :=
  ⟨s.data.map Char.toUpper⟩

/-- Python `str.strip()`, restricted to ASCII whitespace: drop whitespace
characters from both ends. -/
def pyStrip (s : String) : String :=
  ⟨((s.data.dropWhile Char.isWhitespace).reverse.dropWhile Char.isWhitespace).reverse⟩

/-- Split a character list at every newline, exactly like Python
`str.split('\n')`: splitting the empty string yields one empty part, and a
trailing newline yields a trailing empty part. -/
def splitNewlines : List Char → List (List Char)
  | [] => [[]]
  | c :: rest =>
    match splitNewlines rest with
    | [] => [[]]
    | l :: ls => if c = '\n' then [] :: l :: ls else (c :: l) :: ls

/-- Python `str.split('\n')` on a Lean `String`. -/
def pySplitLines (s : String) : List String :=
  (splitNewlines s.data).map (⟨·⟩)

/-! ## Configuration constants (`TerminalBased.py` lines 13-97) -/

/-- The word corpus `WORD_LIST`. -/
def WORD_LIST : List String := [
  "PYTHON", "PROGRAMMING", "COMPUTER", "DEVELOPER", "ALGORITHM",
  "TERMINAL", "SCANLINE", "RETRO", "HANGMAN", "KEYBOARD",
  "MONITOR", "ELECTRONIC", "VINTAGE", "CONSOLE", "PIXEL"
]

/-- The seven hangman figure stages `HANGMAN_STAGES`, transcribed with the
exact whitespace of the Python triple-quoted literals: each begins with a
newline and ends with a newline followed by four spaces. -/
def HANGMAN_STAGES : List String := [
  "\n       -----\n       |   |\n           |\n           |\n           |\n           |\n    ---------\n    ",
  "\n       -----\n       |   |\n       O   |\n           |\n           |\n           |\n    ---------\n    ",
  "\n       -----\n       |   |\n       O   |\n       |   |\n           |\n           |\n    ---------\n    ",
  "\n       -----\n       |   |\n       O   |\n      /|   |\n           |\n           |\n    ---------\n    ",
  "\n       -----\n       |   |\n       O   |\n      /|\\  |\n           |\n           |\n    ---------\n    ",
  "\n       -----\n       |   |\n       O   |\n      /|\\  |\n      /    |\n           |\n    ---------\n    ",
  "\n       -----\n       |   |\n       O   |\n      /|\\  |\n      / \\  |\n           |\n    ---------\n    "
]

/-- `MAX_INCORRECT_GUESSES = len(HANGMAN_STAGES) - 1` (line 97). -/
def MAX_INCORRECT_GUESSES : Nat := HANGMAN_STAGES.length - 1

/-! ## Colorama escape sequences

The colorama constants used by the source, as the ANSI escape strings they
expand to. -/

def Fore.GREEN : String := "\x1b[32m"

def Back.BLACK : String := "\x1b[40m"

def Style.BRIGHT : String := "\x1b[1m"

def Style.DIM : String := "\x1b[2m"

def Style.RESET_ALL : String := "\x1b[0m"

/-- `apply_crt_style(text, bright)` (lines 108-117). -/
def apply_crt_style (text : String) (bright : Bool) : String :=
  if bright then
    Fore.GREEN ++ Back.BLACK ++ Style.BRIGHT ++ text ++ Style.RESET_ALL
  else
    Fore.GREEN ++ Back.BLACK ++ Style.DIM ++ text ++ Style.RESET_ALL

/-! ## Game state (`play_game`, lines 234-294)

`guessed_letters` is the Python `set` of guessed letters, represented as the
list of its elements in insertion order (the rendering always sorts it, so
the order carries no meaning).  `setAdd` is Python `set.add`: a no-op when
the element is already present.
-/

/-- Python `set.add` on the insertion-order list representation of a set. -/
def setAdd (g : List Char) (c : Char) : List Char :=
  if c ∈ g then g else g ++ [c]

/-- The per-session state mutated by the inner loop of `play_game`. -/
structure GameState where
  chosen_word : String
  guessed_letters : List Char
  incorrect_guesses : Nat
deriving DecidableEq

/-- The derived win/loss status of a session. -/
inductive Status
  | InProgress
  | Won
  | Lost
deriving DecidableEq

/-- The status checks of the inner loop (lines 254-266), in source order:
the win check `all(letter in guessed_letters for letter in chosen_word)`
runs first, then the loss check `incorrect_guesses >= MAX_INCORRECT_GUESSES`;
if neither fires the loop goes on to solicit a guess. -/
def status (s : GameState) : Status :=
  if s.chosen_word.data.all (fun letter => decide (letter ∈ s.guessed_letters)) then
    Status.Won
  else if MAX_INCORRECT_GUESSES ≤ s.incorrect_guesses then
    Status.Lost
  else
    Status.InProgress

/-! ## Guess validation (`get_guess`, lines 216-232) -/

/-- The outcome of one pass of the body of `get_guess`: either a validated
letter, or a rejection together with the message printed to the player. -/
inductive GuessOutcome
  | accepted (c : Char)
  | rejected (msg : String)
deriving DecidableEq

/-- The rejection message of line 225 (shared by the length check and the
letter-range check, which line 224 merges into a single condition). -/
def invalid_input_message : String :=
  "Invalid input. Please enter a single letter (A-Z)."

/-- The rejection message of line 229; the guessed character is quoted
between two apostrophes (character 39). -/
def already_guessed_message (c : Char) : String :=
  "You already guessed " ++ ⟨[Char.ofNat 39, c, Char.ofNat 39]⟩ ++ ". Try again."

/-- One pass of the body of `get_guess` on a raw input line: uppercase the
input, reject unless it is a single character between 'A' and 'Z'
(line 224: `len(guess) != 1 or not 'A' <= guess <= 'Z'`; the string
comparison there only runs on length-1 strings, where it coincides with
the character comparison used here), reject a letter already guessed,
otherwise accept. -/
def get_guess_outcome (raw : String) (already_guessed : List Char) : GuessOutcome :=
  match (pyUpper raw).data with
  | [guess] =>
    if 'A' ≤ guess ∧ guess ≤ 'Z' then
      if guess ∈ already_guessed then
        GuessOutcome.rejected (already_guessed_message guess)
      else
        GuessOutcome.accepted guess
    else
      GuessOutcome.rejected invalid_input_message
  | _ => GuessOutcome.rejected invalid_input_message

/-- `get_guess` as seen by its caller: `None` on rejection (lines 227, 231),
the validated uppercase letter on acceptance (line 232). -/
def get_guess (raw : String) (already_guessed : List Char) : Option Char :=
  match get_guess_outcome raw already_guessed with
  | GuessOutcome.accepted c => some c
  | GuessOutcome.rejected _ => none

/-- The `while guess is None` loop of lines 269-273, run over a stream of
raw input lines: rejected inputs are skipped and the first accepted letter
is returned. -/
def solicit_guess : List String → List Char → Option Char
  | [], _ => none
  | raw :: rest, g =>
    match get_guess raw g with
    | some c => some c
    | none => solicit_guess rest g

/-! ## Applying a guess (lines 275-284) -/

/-- Lines 275-284: insert the validated guess into `guessed_letters`, and
increment `incorrect_guesses` exactly when the guess does not occur in
`chosen_word`. -/
def applyGuess (s : GameState) (guess : Char) : GameState :=
  let guessed := setAdd s.guessed_letters guess
  if guess ∉ s.chosen_word.data then
    { s with guessed_letters := guessed,
             incorrect_guesses := s.incorrect_guesses + 1 }
  else
    { s with guessed_letters := guessed }

/-- States reachable by the inner loop of `play_game`: a fresh session on a
corpus word, then repeated application of validated guesses.  A guess is
only solicited (lines 268-273) after the win check and the loss check have
both failed, i.e. while `status` is `InProgress`. -/
inductive Reachable : GameState → Prop
  | init (w : String) (hw : w ∈ WORD_LIST) :
      Reachable { chosen_word := w, guessed_letters := [], incorrect_guesses := 0 }
  | step (s : GameState) (raw : String) (c : Char) :
      Reachable s →
      status s = Status.InProgress →
      get_guess raw s.guessed_letters = some c →
      Reachable (applyGuess s c)

/-! ## Frame composition (`display_game`, lines 163-203, and
`draw_border_and_content`, lines 119-151) -/

/-- The masked word of lines 170-175: for each letter of the chosen word,
the letter and a space when guessed, else an underscore and a space. -/
def display_word (chosen_word : String) (guessed_letters : List Char) : String :=
  chosen_word.data.foldl
    (fun acc letter =>
      if letter ∈ guessed_letters then acc ++ ⟨[letter, ' ']⟩ else acc ++ "_ ")
    ""

/-- Python `sorted` on a list of characters: ascending by code point. -/
def pySorted (l : List Char) : List Char :=
  List.insertionSort (fun a b => a ≤ b) l

/-- Line 183: the title, with emphasis escape codes embedded in the content
string itself. -/
def title_line : String :=
  ⟨List.replicate 15 ' '⟩ ++ Style.BRIGHT ++ "--- HANGMAN CRT EDITION ---" ++ Style.RESET_ALL

/-- Line 189: the masked-word line (the masked word is stripped of its
trailing space). -/
def word_line (chosen_word : String) (guessed_letters : List Char) : String :=
  " Word: " ++ pyStrip (display_word chosen_word guessed_letters)

/-- Line 192: guessed letters minus a possible stray space character,
sorted ascending and joined with comma-space. -/
def guessed_letters_line (guessed_letters : List Char) : String :=
  " Guessed Letters: "
    ++ pyJoin ", " ((pySorted (guessed_letters.filter (fun c => decide (c ≠ ' ')))).map (⟨[·]⟩))

/-- Line 194: remaining incorrect guesses, as the integer
`MAX_INCORRECT_GUESSES - incorrect_guesses` (Python subtraction, so an
integer that could in principle be negative). -/
def incorrect_left_line (incorrect_guesses : Nat) : String :=
  " Incorrect Guesses Left: " ++ toString ((MAX_INCORRECT_GUESSES : Int) - incorrect_guesses)

/-- Line 197: the status message line. -/
def status_line (message : String) : String :=
  " Status: " ++ message

/-- Line 200: the input prompt placeholder. -/
def prompt_line : String :=
  " >_ "

/-- Lines 181-200: the ordered content lines of a frame.  The stage lookup
`HANGMAN_STAGES[incorrect_guesses]` of line 178 is modelled with a default
for an out-of-range index; the stage-index theorem shows the in-range
branch is the one taken at every reachable state. -/
def compose_content (chosen_word : String) (guessed_letters : List Char)
    (incorrect_guesses : Nat) (message : String) : List String :=
  [title_line, ""]
    ++ pySplitLines (HANGMAN_STAGES.getD incorrect_guesses "")
    ++ ["",
        word_line chosen_word guessed_letters,
        guessed_letters_line guessed_letters,
        incorrect_left_line incorrect_guesses,
        "",
        status_line message,
        "",
        prompt_line]

/-- Lines 129-136: left-justify every content line to the interior width
`80 - 4`, then append blank padded lines until `24 - 2` content rows are
present (the `while` loop appends nothing when the content is already that
long or longer). -/
def padded_content (content_lines : List String) : List String :=
  let width := 80
  let height := 24
  let padded := content_lines.map (fun line => pyLjust line (width - 4))
  padded ++ List.replicate (height - 2 - padded.length) (pyLjust "" (width - 4))

/-- Lines 139-151: the styled frame — a dim top border, one bright bordered
row per padded content line, and a dim bottom border. -/
def draw_border_and_content (content_lines : List String) : List String :=
  let width := 80
  [apply_crt_style ("+" ++ ⟨List.replicate (width - 2) '-'⟩ ++ "+") false]
    ++ (padded_content content_lines).map
        (fun line => apply_crt_style ("| " ++ line ++ " |") true)
    ++ [apply_crt_style ("+" ++ ⟨List.replicate (width - 2) '-'⟩ ++ "+") false]

/-- The same frame before any emphasis styling is applied: identical rows
with the `apply_crt_style` wrapper omitted. -/
def draw_border_raw (content_lines : List String) : List String :=
  let width := 80
  ["+" ++ ⟨List.replicate (width - 2) '-'⟩ ++ "+"]
    ++ (padded_content content_lines).map (fun line => "| " ++ line ++ " |")
    ++ ["+" ++ ⟨List.replicate (width - 2) '-'⟩ ++ "+"]

/-- The full composed frame of `display_game` (line 203) for a game state
and a status message. -/
def display_game_frame (s : GameState) (message : String) : List String :=
  draw_border_and_content
    (compose_content s.chosen_word s.guessed_letters s.incorrect_guesses message)

/-- The composed frame before styling. -/
def display_game_frame_raw (s : GameState) (message : String) : List String :=
  draw_border_raw
    (compose_content s.chosen_word s.guessed_letters s.incorrect_guesses message)

/-! ## Word selection (`random.choice(WORD_LIST)`, line 244) -/

/-- `random.choice(seq)` with the randomness made explicit: pick the entry
at a random in-range index.  On an empty sequence `random.choice` raises
(there is no in-range index), modelled as `none`. -/
def random_choice (seq : List String) (r : Nat) : Option String :=
  if seq.isEmpty then none else seq.get? (r % seq.length)

/-! ## Concrete fixtures used by witnesses and counterexamples -/

/-- The initial state of a session on the corpus word "PYTHON". -/
def pyInit : GameState :=
  { chosen_word := "PYTHON", guessed_letters := [], incorrect_guesses := 0 }

/-- A 75-character status message: shorter than the 76-character interior
width of the frame, yet long enough that the composed status line
overflows that width. -/
def msg75 : String := ⟨List.replicate 75 'X'⟩

/-! ## Helper lemmas: validator characterization and loop invariants -/

/-- `String.append` acts as append on the underlying character lists. -/
theorem string_append_data (a b : String) : (a ++ b).data = a.data ++ b.data := rfl

/-- `get_guess` accepts exactly the single uppercase letters A-Z not already
guessed, and returns that letter. -/
theorem get_guess_eq_some {raw : String} {g : List Char} {c : Char} :
    get_guess raw g = some c ↔
      (pyUpper raw).data = [c] ∧ ('A' ≤ c ∧ c ≤ 'Z') ∧ c ∉ g := by
  unfold get_guess get_guess_outcome
  rcases hd : (pyUpper raw).data with _ | ⟨x, _ | ⟨y, rest⟩⟩
  · simp
  · by_cases hx : 'A' ≤ x ∧ x ≤ 'Z'
    · by_cases hg : x ∈ g
      · simp only [hx, hg, if_true, if_pos]
        simp
        rintro rfl
        simp [hg]
      · simp only [hx, hg, if_true, if_neg, not_false_iff]
        simp
        rintro rfl
        exact ⟨hx, hg⟩
    · simp only [hx, if_neg, not_false_iff]
      simp
      rintro rfl h1 h2
      exact (hx ⟨h1, h2⟩).elim
  · simp

/-- A state whose `status` is `InProgress` has an unguessed letter and room
for another incorrect guess. -/
theorem status_inProgress {s : GameState} (h : status s = Status.InProgress) :
    ¬ (∀ c ∈ s.chosen_word.data, c ∈ s.guessed_letters) ∧
      s.incorrect_guesses < MAX_INCORRECT_GUESSES := by
  unfold status at h
  split_ifs at h with h1 h2
  constructor
  · intro hall
    rw [List.all_eq_true] at h1
    exact h1 (fun c hc => decide_eq_true (hall c hc))
  · omega

/-- `applyGuess` never changes the chosen word. -/
theorem applyGuess_word (s : GameState) (c : Char) :
    (applyGuess s c).chosen_word = s.chosen_word := by
  unfold applyGuess
  split_ifs <;> rfl

/-- `applyGuess` updates the guessed set by `set.add`. -/
theorem applyGuess_guessed (s : GameState) (c : Char) :
    (applyGuess s c).guessed_letters = setAdd s.guessed_letters c := by
  unfold applyGuess
  split_ifs <;> rfl

/-- `applyGuess` increments the incorrect counter exactly when the guess
does not occur in the chosen word. -/
theorem applyGuess_incorrect (s : GameState) (c : Char) :
    (applyGuess s c).incorrect_guesses =
      if c ∈ s.chosen_word.data then s.incorrect_guesses
      else s.incorrect_guesses + 1 := by
  unfold applyGuess
  by_cases h : c ∈ s.chosen_word.data <;> simp [h]

/-- The combined loop invariant: every reachable state has its word in the
corpus, only uppercase letters guessed, no duplicate guesses, at most
`MAX_INCORRECT_GUESSES` incorrect guesses, and at least as many incorrect
guesses as guessed letters outside the word. -/
theorem reachable_inv {s : GameState} (h : Reachable s) :
    s.chosen_word ∈ WORD_LIST ∧
      (∀ c ∈ s.guessed_letters, 'A' ≤ c ∧ c ≤ 'Z') ∧
      s.guessed_letters.Nodup ∧
      s.incorrect_guesses ≤ MAX_INCORRECT_GUESSES ∧
      (s.guessed_letters.filter
          (fun c => decide (c ∉ s.chosen_word.data))).length ≤ s.incorrect_guesses := by
  induction h with
  | init w hw => simpa using hw
  | step s raw c hs hstatus hget IH =>
    obtain ⟨hw, hletters, hnodup, _, hfilter⟩ := IH
    obtain ⟨-, hrange, hnotmem⟩ := get_guess_eq_some.mp hget
    have hinc := (status_inProgress hstatus).2
    have hadd : setAdd s.guessed_letters c = s.guessed_letters ++ [c] := by
      unfold setAdd
      simp [hnotmem]
    refine ⟨?_, ?_, ?_, ?_, ?_⟩
    · rw [applyGuess_word]; exact hw
    · rw [applyGuess_guessed, hadd]
      intro d hd
      rcases List.mem_append.mp hd with h1 | h1
      · exact hletters d h1
      · rcases List.mem_singleton.mp h1 with rfl
        exact hrange
    · rw [applyGuess_guessed, hadd]
      exact List.Nodup.append hnodup (List.nodup_singleton c)
        (List.disjoint_singleton.mpr hnotmem)
    · rw [applyGuess_incorrect]
      split_ifs <;> omega
    · rw [applyGuess_guessed, hadd, applyGuess_word, applyGuess_incorrect]
      rw [List.filter_append]
      simp only [decide_not] at hfilter ⊢
      by_cases hcw : c ∈ s.chosen_word.data
      · simp [hcw]
        omega
      · simp [hcw]
        omega

/-- A duplicate-free list of characters drawn from `m` is no longer than
`m` deduplicated. -/
theorem nodup_subset_dedup_length {l m : List Char} (hn : l.Nodup)
    (hsub : ∀ c ∈ l, c ∈ m) : l.length ≤ m.dedup.length := by
  have h1 : l.toFinset.card = l.length := List.toFinset_card_of_nodup hn
  have h2 : l.toFinset ⊆ m.toFinset := by
    intro c hc
    rw [List.mem_toFinset] at hc ⊢
    exact hsub c hc
  have h3 := Finset.card_le_card h2
  have h4 : m.toFinset.card = m.dedup.length := rfl
  omega

/-- Every corpus word has at most 9 distinct letters and at most 11
characters. -/
theorem word_list_facts :
    ∀ w ∈ WORD_LIST, w.data.dedup.length ≤ 9 ∧ w.data.length ≤ 11 := by decide

/-- At every reachable state at most 15 letters have been guessed: at most
9 distinct letters of the word plus at most 6 incorrect guesses. -/
theorem reachable_guessed_card {s : GameState} (h : Reachable s) :
    s.guessed_letters.length ≤ 15 := by
  obtain ⟨hw, _, hnodup, hinc, hfilter⟩ := reachable_inv h
  have hpart := @List.length_eq_length_filter_add Char s.guessed_letters
    (fun c => decide (c ∈ s.chosen_word.data))
  have hin : (s.guessed_letters.filter
      (fun c => decide (c ∈ s.chosen_word.data))).length ≤ 9 := by
    have hsub : ∀ c ∈ s.guessed_letters.filter
        (fun c => decide (c ∈ s.chosen_word.data)), c ∈ s.chosen_word.data := by
      intro c hc
      exact of_decide_eq_true (List.mem_filter.mp hc).2
    calc (s.guessed_letters.filter
        (fun c => decide (c ∈ s.chosen_word.data))).length
        ≤ s.chosen_word.data.dedup.length :=
          nodup_subset_dedup_length (hnodup.filter _) hsub
      _ ≤ 9 := (word_list_facts _ hw).1
  have hout : (s.guessed_letters.filter
      (fun c => !decide (c ∈ s.chosen_word.data))).length ≤ s.incorrect_guesses := by
    have heq : (fun c => !decide (c ∈ s.chosen_word.data)) =
        (fun c => decide (c ∉ s.chosen_word.data)) := by
      funext c
      simp [decide_not]
    rw [heq]
    exact hfilter
  have hmax : MAX_INCORRECT_GUESSES = 6 := rfl
  omega

/-! ## Helper lemmas: line widths of the composed frame -/

/-- Folding the masked-word construction appends two characters per letter. -/
theorem display_word_foldl_length (g : List Char) (l : List Char) (acc : String) :
    (l.foldl (fun acc letter =>
        if letter ∈ g then acc ++ (⟨[letter, ' ']⟩ : String) else acc ++ "_ ") acc).data.length
      = acc.data.length + 2 * l.length := by
  induction l generalizing acc with
  | nil => simp
  | cons c rest IH =>
    simp only [List.foldl_cons, List.length_cons]
    rw [IH]
    by_cases hc : c ∈ g <;> simp [hc, string_append_data] <;> omega

/-- The masked word is exactly twice as long as the word. -/
theorem display_word_length (w : String) (g : List Char) :
    (display_word w g).data.length = 2 * w.data.length := by
  unfold display_word
  rw [display_word_foldl_length]
  simp

/-- Stripping never lengthens a string. -/
theorem pyStrip_length_le (s : String) : (pyStrip s).data.length ≤ s.data.length := by
  unfold pyStrip
  calc ((s.data.dropWhile Char.isWhitespace).reverse.dropWhile Char.isWhitespace).reverse.length
      = ((s.data.dropWhile Char.isWhitespace).reverse.dropWhile Char.isWhitespace).length := by
        rw [List.length_reverse]
    _ ≤ (s.data.dropWhile Char.isWhitespace).reverse.length :=
        (List.dropWhile_sublist _).length_le
    _ = (s.data.dropWhile Char.isWhitespace).length := by rw [List.length_reverse]
    _ ≤ s.data.length := (List.dropWhile_sublist _).length_le

/-- Joining `n` single-character strings with a comma and a space yields at
most `3 n` characters. -/
theorem pyJoin_singletons_length : ∀ l : List Char,
    (pyJoinChars [',', ' '] (l.map (fun c => [c]))).length ≤ 3 * l.length
  | [] => by simp [pyJoinChars]
  | [c] => by simp [pyJoinChars]
  | c :: d :: rest => by
    have IH := pyJoin_singletons_length (d :: rest)
    simp only [List.map_cons, pyJoinChars, List.length_append, List.length_cons,
      List.length_nil] at IH ⊢
    omega

/-- Sorting preserves length. -/
theorem pySorted_length (l : List Char) : (pySorted l).length = l.length :=
  (List.perm_insertionSort _ l).length_eq

/-- Left-justifying a string that fits yields exactly the target width. -/
theorem pyLjust_length {s : String} {n : Nat} (h : s.data.length ≤ n) :
    (pyLjust s n).data.length = n := by
  show (s.data ++ List.replicate (n - s.data.length) ' ').length = n
  rw [List.length_append, List.length_replicate]
  omega

/-- Every stage string splits into exactly 9 lines, each at most 76
characters wide. -/
theorem stage_split_facts :
    ∀ i, i ≤ 6 → (pySplitLines (HANGMAN_STAGES.getD i "")).length = 9 ∧
      ∀ l ∈ pySplitLines (HANGMAN_STAGES.getD i ""), l.data.length ≤ 76 := by decide

/-- The remaining-guesses line fits the interior width whenever the counter
is in range. -/
theorem incorrect_left_line_length {n : Nat} (h : n ≤ 6) :
    (incorrect_left_line n).data.length ≤ 76 := by
  interval_cases n <;> decide

/-- The masked-word line fits the interior width for corpus-sized words. -/
theorem word_line_length {w : String} (g : List Char) (hw : w.data.length ≤ 11) :
    (word_line w g).data.length ≤ 76 := by
  unfold word_line
  rw [string_append_data, List.length_append]
  have h1 := pyStrip_length_le (display_word w g)
  have h2 := display_word_length w g
  have h3 : (" Word: ").data.length = 7 := by decide
  omega

/-- The guessed-letters line fits the interior width whenever at most 15
letters have been guessed. -/
theorem guessed_letters_line_length {g : List Char} (hg : g.length ≤ 15) :
    (guessed_letters_line g).data.length ≤ 76 := by
  unfold guessed_letters_line
  rw [string_append_data, List.length_append]
  have h18 : (" Guessed Letters: ").data.length = 18 := by decide
  have hjoin : (pyJoin ", "
      ((pySorted (g.filter (fun c => decide (c ≠ ' ')))).map
        (fun c => (⟨[c]⟩ : String)))).data.length ≤ 3 * g.length := by
    unfold pyJoin
    show (pyJoinChars (", ").data
      (((pySorted (g.filter (fun c => decide (c ≠ ' ')))).map
        (fun c => (⟨[c]⟩ : String))).map (·.data))).length ≤ 3 * g.length
    rw [List.map_map]
    have hcomp : ((fun s : String => s.data) ∘ (fun c : Char => (⟨[c]⟩ : String))) =
        (fun c : Char => [c]) := rfl
    rw [hcomp]
    calc (pyJoinChars (", ").data
        ((pySorted (g.filter (fun c => decide (c ≠ ' ')))).map (fun c => [c]))).length
        ≤ 3 * (pySorted (g.filter (fun c => decide (c ≠ ' ')))).length :=
          pyJoin_singletons_length _
      _ = 3 * (g.filter (fun c => decide (c ≠ ' '))).length := by rw [pySorted_length]
      _ ≤ 3 * g.length := by
          have := List.length_filter_le (fun c => decide (c ≠ ' ')) g
          omega
  omega

/-- At a reachable state, every content line of a frame fits the interior
width of 76 characters, provided the status message leaves room for the
9-character `" Status: "` prefix. -/
theorem compose_content_line_bound {s : GameState} (h : Reachable s) {msg : String}
    (hmsg : msg.data.length ≤ 67) :
    ∀ line ∈ compose_content s.chosen_word s.guessed_letters s.incorrect_guesses msg,
      line.data.length ≤ 76 := by
  obtain ⟨hw, -, -, hinc, -⟩ := reachable_inv h
  have hmax : MAX_INCORRECT_GUESSES = 6 := rfl
  have hglen := reachable_guessed_card h
  intro line hline
  unfold compose_content at hline
  simp only [List.mem_append, List.mem_cons, List.not_mem_nil, or_false] at hline
  rcases hline with ((rfl | rfl) | hstage) | (rfl | rfl | rfl | rfl | rfl | rfl | rfl | rfl)
  · decide
  · decide
  · exact (stage_split_facts _ (by omega)).2 line hstage
  · decide
  · exact word_line_length _ (word_list_facts _ hw).2
  · exact guessed_letters_line_length hglen
  · exact incorrect_left_line_length (by omega)
  · decide
  · unfold status_line
    rw [string_append_data, List.length_append]
    have : (" Status: ").data.length = 9 := by decide
    omega
  · decide
  · decide

/-- With a 9-line stage, a frame has exactly 19 content lines. -/
theorem compose_content_length {w : String} {g : List Char} {n : Nat} {msg : String}
    (h9 : (pySplitLines (HANGMAN_STAGES.getD n "")).length = 9) :
    (compose_content w g n msg).length = 19 := by
  unfold compose_content
  rw [List.length_append, List.length_append, h9]
  rfl

/-- Padding 19 content lines that fit the interior yields exactly 22 rows
of exactly 76 characters. -/
theorem padded_content_facts {content : List String}
    (hlen : content.length = 19) (hbound : ∀ l ∈ content, l.data.length ≤ 76) :
    (padded_content content).length = 22 ∧
      ∀ l ∈ padded_content content, l.data.length = 76 := by
  unfold padded_content
  constructor
  · simp [hlen]
  · intro l hl
    simp only [List.mem_append, List.mem_map, List.mem_replicate] at hl
    rcases hl with ⟨x, hx, rfl⟩ | ⟨-, rfl⟩
    · exact pyLjust_length (hbound x hx)
    · exact pyLjust_length (by decide)

/-- The unstyled frame built from 19 fitting content lines has exactly 24
rows of exactly 80 characters. -/
theorem draw_border_raw_facts {content : List String}
    (hlen : content.length = 19) (hbound : ∀ l ∈ content, l.data.length ≤ 76) :
    (draw_border_raw content).length = 24 ∧
      ∀ row ∈ draw_border_raw content, row.data.length = 80 := by
  obtain ⟨hp1, hp2⟩ := padded_content_facts hlen hbound
  unfold draw_border_raw
  constructor
  · simp [hp1]
  · intro row hrow
    simp only [List.mem_append, List.mem_cons, List.mem_map, List.not_mem_nil,
      or_false, List.mem_singleton] at hrow
    rcases hrow with (rfl | ⟨x, hx, rfl⟩) | rfl
    · decide
    · have := hp2 x hx
      show ((['|', ' '] ++ x.data) ++ [' ', '|']).length = 80
      simp only [List.length_append, List.length_cons, List.length_nil]
      omega
    · decide

/-- Each row of the styled frame is the corresponding row of the unstyled
frame with `apply_crt_style` applied. -/
theorem draw_border_styled (content : List String) :
    List.Forall₂ (fun r st => ∃ b, st = apply_crt_style r b)
      (draw_border_raw content) (draw_border_and_content content) := by
  unfold draw_border_raw draw_border_and_content
  refine List.rel_append (List.rel_append ?_ ?_) ?_
  · exact List.forall₂_cons.mpr ⟨⟨false, rfl⟩, List.Forall₂.nil⟩
  · induction padded_content content with
    | nil => exact List.Forall₂.nil
    | cons x rest IH => exact List.forall₂_cons.mpr ⟨⟨true, rfl⟩, IH⟩
  · exact List.forall₂_cons.mpr ⟨⟨false, rfl⟩, List.Forall₂.nil⟩

/-- Folding the masked-word construction equals mapping each letter to its
two-character rendering and concatenating. -/
theorem display_word_foldl_data (g : List Char) (l : List Char) (acc : String) :
    (l.foldl (fun acc letter =>
        if letter ∈ g then acc ++ (⟨[letter, ' ']⟩ : String) else acc ++ "_ ") acc).data
      = acc.data ++ (l.map (fun letter =>
          if letter ∈ g then [letter, ' '] else ['_', ' '])).flatten := by
  induction l generalizing acc with
  | nil => simp
  | cons c rest IH =>
    simp only [List.foldl_cons, List.map_cons, List.flatten]
    rw [IH]
    by_cases hc : c ∈ g <;> simp [hc, string_append_data]

/-! ## Claim theorems -/

/-- Claim C1, counterexample: the dimension claim fails as stated.  The
initial state on "PYTHON" is reachable and the 75-character message is
shorter than the 76-character interior width, yet the composed frame does
not consist of 24 rows of exactly 80 characters (the status row overflows
to 88 characters, because `ljust` pads but never truncates). -/
theorem frame_dims_counterexample :
    Reachable pyInit ∧ msg75.data.length < 76 ∧
      ¬ ((display_game_frame_raw pyInit msg75).length = 24 ∧
          ∀ row ∈ display_game_frame_raw pyInit msg75, row.data.length = 80) :=
  ⟨Reachable.init "PYTHON" (by decide), by decide, by decide⟩

/-- Claim C1 (amended): for every reachable state and every status message
that fits the interior width together with its `" Status: "` prefix (at
most 67 characters), the composed frame is a top border row, one bordered
row per padded content line, and a bottom border row — 24 rows in all,
each exactly 80 characters wide before styling — and the styled frame that
is actually printed consists of exactly these rows with `apply_crt_style`
applied. -/
theorem frame_dims (s : GameState) (msg : String) (hs : Reachable s)
    (hmsg : msg.data.length ≤ 67) :
    display_game_frame_raw s msg =
        ["+" ++ (⟨List.replicate 78 '-'⟩ : String) ++ "+"]
          ++ (padded_content (compose_content s.chosen_word s.guessed_letters
                s.incorrect_guesses msg)).map (fun line => "| " ++ line ++ " |")
          ++ ["+" ++ (⟨List.replicate 78 '-'⟩ : String) ++ "+"] ∧
      (display_game_frame_raw s msg).length = 24 ∧
      (∀ row ∈ display_game_frame_raw s msg, row.data.length = 80) ∧
      List.Forall₂ (fun r st => ∃ b, st = apply_crt_style r b)
        (display_game_frame_raw s msg) (display_game_frame s msg) ∧
      (display_game_frame s msg).length = 24 := by
  obtain ⟨-, -, -, hinc, -⟩ := reachable_inv hs
  have hmax : MAX_INCORRECT_GUESSES = 6 := rfl
  have h9 := (stage_split_facts s.incorrect_guesses (by omega)).1
  have hlen := @compose_content_length s.chosen_word s.guessed_letters
    s.incorrect_guesses msg h9
  have hbound := compose_content_line_bound hs hmsg
  obtain ⟨hr1, hr2⟩ := draw_border_raw_facts hlen hbound
  have hstyled := draw_border_styled
    (compose_content s.chosen_word s.guessed_letters s.incorrect_guesses msg)
  refine ⟨rfl, hr1, hr2, hstyled, ?_⟩
  have := hstyled.length_eq
  unfold display_game_frame
  omega

/-- Claim C1, witness: the amended theorem evaluated at the initial
"PYTHON" state with the in-game prompt message. -/
theorem frame_dims_witness :
    (display_game_frame_raw pyInit "Guess a letter.").length = 24 ∧
      ∀ row ∈ display_game_frame_raw pyInit "Guess a letter.", row.data.length = 80 :=
  ⟨(frame_dims pyInit "Guess a letter." (Reachable.init "PYTHON" (by decide))
      (by decide)).2.1,
   (frame_dims pyInit "Guess a letter." (Reachable.init "PYTHON" (by decide))
      (by decide)).2.2.1⟩

/-- Claim C2: at every reachable state, the status is `Won` exactly when
every letter of the chosen word has been guessed; `Lost` exactly when the
incorrect counter equals `MAX_INCORRECT_GUESSES` and the state is not
`Won` (the win check takes priority); and `InProgress` — the state in
which the loop goes on to solicit a guess — exactly otherwise. -/
theorem status_spec (s : GameState) (hs : Reachable s) :
    (status s = Status.Won ↔ ∀ c ∈ s.chosen_word.data, c ∈ s.guessed_letters) ∧
      (status s = Status.Lost ↔
        s.incorrect_guesses = MAX_INCORRECT_GUESSES ∧ ¬ status s = Status.Won) ∧
      (status s = Status.InProgress ↔
        ¬ (∀ c ∈ s.chosen_word.data, c ∈ s.guessed_letters) ∧
          s.incorrect_guesses < MAX_INCORRECT_GUESSES) := by
  obtain ⟨-, -, -, hinc, -⟩ := reachable_inv hs
  have hiff : (s.chosen_word.data.all
      (fun letter => decide (letter ∈ s.guessed_letters)) = true) ↔
      (∀ c ∈ s.chosen_word.data, c ∈ s.guessed_letters) := by
    simp [List.all_eq_true]
  unfold status
  by_cases hall : ∀ c ∈ s.chosen_word.data, c ∈ s.guessed_letters
  · rw [if_pos (hiff.mpr hall)]
    refine ⟨by simpa using hall, by simp, ?_⟩
    simp
    intro x hx hnx
    exact absurd (hall x hx) hnx
  · rw [if_neg (fun h => hall (hiff.mp h))]
    by_cases hge : MAX_INCORRECT_GUESSES ≤ s.incorrect_guesses
    · rw [if_pos hge]
      refine ⟨by simp [hall], ?_, by simp; omega⟩
      simp
      omega
    · rw [if_neg hge]
      refine ⟨by simp [hall], ?_, by simp [hall]; omega⟩
      simp
      omega

/-- Claim C2, witness: the characterization evaluated at the initial
"PYTHON" state, which is in progress. -/
theorem status_spec_witness :
    status pyInit = Status.InProgress ↔
      ¬ (∀ c ∈ pyInit.chosen_word.data, c ∈ pyInit.guessed_letters) ∧
        pyInit.incorrect_guesses < MAX_INCORRECT_GUESSES :=
  (status_spec pyInit (Reachable.init "PYTHON" (by decide))).2.2

/-- Claim C3: applying a guessed letter increments the incorrect counter by
exactly 1 when the letter does not occur in the chosen word and by 0 when
it does, and the counter never exceeds `MAX_INCORRECT_GUESSES` at any
reachable state. -/
theorem incorrect_count_spec :
    (∀ (s : GameState) (c : Char),
        (applyGuess s c).incorrect_guesses =
          if c ∈ s.chosen_word.data then s.incorrect_guesses
          else s.incorrect_guesses + 1) ∧
      ∀ s : GameState, Reachable s →
        s.incorrect_guesses ≤ MAX_INCORRECT_GUESSES :=
  ⟨applyGuess_incorrect, fun _ hs => (reachable_inv hs).2.2.2.1⟩

/-- Claim C3, witness: a wrong guess at the initial state increments the
counter to 1, and the initial counter is within range. -/
theorem incorrect_count_spec_witness :
    (applyGuess pyInit 'Q').incorrect_guesses = 1 ∧
      pyInit.incorrect_guesses ≤ MAX_INCORRECT_GUESSES :=
  ⟨by rw [incorrect_count_spec.1 pyInit 'Q']; decide,
   incorrect_count_spec.2 pyInit (Reachable.init "PYTHON" (by decide))⟩

/-- Claim C4: the validator accepts a raw input exactly when its uppercase
normalization is a single character between 'A' and 'Z' that has not been
guessed, returning that uppercase letter; in particular "a" is accepted as
'A', while "ab", "1", and an already-guessed "A" are rejected. -/
theorem validator_spec :
    (∀ (raw : String) (g : List Char) (c : Char),
        get_guess raw g = some c ↔
          (pyUpper raw).data = [c] ∧ ('A' ≤ c ∧ c ≤ 'Z') ∧ c ∉ g) ∧
      get_guess "a" [] = some 'A' ∧
      get_guess "ab" [] = none ∧
      get_guess "1" [] = none ∧
      get_guess "A" ['A'] = none :=
  ⟨fun _ _ _ => get_guess_eq_some, by decide, by decide, by decide, by decide⟩

/-- Claim C5, counterexample: the claim that the three rejection reasons
map to three distinct messages fails — a length rejection ("ab") and a
not-a-letter rejection ("1") produce the identical message. -/
theorem rejection_message_counterexample :
    get_guess_outcome "ab" [] = get_guess_outcome "1" [] ∧
      get_guess_outcome "ab" [] = GuessOutcome.rejected invalid_input_message := by
  constructor <;> decide

/-- Claim C5 (amended): every rejection carries one of exactly two
user-facing messages — the shared invalid-input message for the length and
letter-range checks, or the already-guessed message, and the two are
distinct — and a rejection makes the solicit loop skip to the remaining
inputs rather than terminate. -/
theorem rejection_messages_spec :
    (∀ (raw : String) (g : List Char) (msg : String),
        get_guess_outcome raw g = GuessOutcome.rejected msg →
          msg = invalid_input_message ∨
            ∃ c, c ∈ g ∧ msg = already_guessed_message c) ∧
      (∀ c : Char, already_guessed_message c ≠ invalid_input_message) ∧
      (∀ (raw : String) (rest : List String) (g : List Char),
        get_guess raw g = none →
          solicit_guess (raw :: rest) g = solicit_guess rest g) := by
  refine ⟨?_, ?_, ?_⟩
  · intro raw g msg h
    unfold get_guess_outcome at h
    rcases hd : (pyUpper raw).data with _ | ⟨x, _ | ⟨y, rest⟩⟩ <;> rw [hd] at h <;>
      dsimp only at h
    · exact Or.inl (GuessOutcome.rejected.inj h).symm
    · split_ifs at h with h1 h2
      · exact Or.inr ⟨x, h2, (GuessOutcome.rejected.inj h).symm⟩
      · exact Or.inl (GuessOutcome.rejected.inj h).symm
    · exact Or.inl (GuessOutcome.rejected.inj h).symm
  · intro c heq
    have hlen : (already_guessed_message c).data.length =
        invalid_input_message.data.length := by rw [heq]
    have h35 : (already_guessed_message c).data.length = 35 := by
      show ((("You already guessed ").data ++ [Char.ofNat 39, c, Char.ofNat 39])
        ++ (". Try again.").data).length = 35
      simp only [List.length_append, List.length_cons, List.length_nil]
    have h50 : (invalid_input_message).data.length = 50 := by decide
    rw [h35, h50] at hlen
    exact absurd hlen (by decide)
  · intro raw rest g h
    simp [solicit_guess, h]

/-- Claim C5, witness: the amended theorem evaluated on the concrete
rejections "ab" (invalid input) and 'A' (message distinctness), and on a
solicit loop that skips the rejected "ab" and goes on to "a". -/
theorem rejection_messages_spec_witness :
    (invalid_input_message = invalid_input_message ∨
        ∃ c, c ∈ ([] : List Char) ∧ invalid_input_message = already_guessed_message c) ∧
      already_guessed_message 'A' ≠ invalid_input_message ∧
      solicit_guess ["ab", "a"] [] = solicit_guess ["a"] [] :=
  ⟨rejection_messages_spec.1 "ab" [] invalid_input_message (by decide),
   rejection_messages_spec.2.1 'A',
   rejection_messages_spec.2.2 "ab" ["a"] [] (by decide)⟩

/-- Claim C6: the masked rendering shows, for each letter of the word, the
letter and a separating space when guessed and an underscore and a space
otherwise; in particular the displayed (stripped) masked word for "CAT"
with {C} guessed is "C _ _", and with C, A, T all guessed it is "C A T". -/
theorem masked_word_spec :
    (∀ (w : String) (g : List Char),
        (display_word w g).data =
          (w.data.map (fun letter =>
            if letter ∈ g then [letter, ' '] else ['_', ' '])).flatten) ∧
      pyStrip (display_word "CAT" ['C']) = "C _ _" ∧
      pyStrip (display_word "CAT" ['C', 'A', 'T']) = "C A T" := by
  refine ⟨?_, by decide, by decide⟩
  intro w g
  unfold display_word
  rw [display_word_foldl_data]
  simp

/-- Claim C7: `MAX_INCORRECT_GUESSES` is the number of hangman stages minus
one, equal to 6, the highest index of the stage table; hence the stage
lookup at the incorrect-guess count is in bounds at every reachable state. -/
theorem stage_table_spec :
    MAX_INCORRECT_GUESSES = HANGMAN_STAGES.length - 1 ∧
      MAX_INCORRECT_GUESSES = 6 ∧
      ∀ s : GameState, Reachable s →
        s.incorrect_guesses < HANGMAN_STAGES.length := by
  refine ⟨rfl, rfl, fun s hs => ?_⟩
  have h1 := (reachable_inv hs).2.2.2.1
  have h2 : MAX_INCORRECT_GUESSES = 6 := rfl
  have h3 : HANGMAN_STAGES.length = 7 := rfl
  omega

/-- Claim C7, witness: the in-bounds property evaluated at the initial
"PYTHON" state. -/
theorem stage_table_spec_witness :
    pyInit.incorrect_guesses < HANGMAN_STAGES.length :=
  stage_table_spec.2.2 pyInit (Reachable.init "PYTHON" (by decide))

/-- Claim C8: the guessed-letter set only grows under `applyGuess`, at
every reachable state it is duplicate-free and contains only the letters
'A'..'Z', and the validator never accepts a letter already in the set. -/
theorem guessed_letters_spec :
    (∀ (s : GameState) (c : Char),
        s.guessed_letters ⊆ (applyGuess s c).guessed_letters) ∧
      (∀ s : GameState, Reachable s →
        s.guessed_letters.Nodup ∧
          ∀ c ∈ s.guessed_letters, 'A' ≤ c ∧ c ≤ 'Z') ∧
      (∀ (raw : String) (g : List Char) (c : Char),
        get_guess raw g = some c → c ∉ g) := by
  refine ⟨?_, ?_, ?_⟩
  · intro s c x hx
    rw [applyGuess_guessed]
    unfold setAdd
    split_ifs
    · exact hx
    · exact List.mem_append_left _ hx
  · intro s hs
    obtain ⟨-, h1, h2, -, -⟩ := reachable_inv hs
    exact ⟨h2, h1⟩
  · intro raw g c h
    exact (get_guess_eq_some.mp h).2.2

/-- Claim C8, witness: the invariants evaluated after guessing 'P' from the
initial "PYTHON" state, and the validator rejecting no fresh guess. -/
theorem guessed_letters_spec_witness :
    ((applyGuess pyInit 'P').guessed_letters.Nodup ∧
        ∀ c ∈ (applyGuess pyInit 'P').guessed_letters, 'A' ≤ c ∧ c ≤ 'Z') ∧
      'A' ∉ ([] : List Char) :=
  ⟨guessed_letters_spec.2.1 (applyGuess pyInit 'P')
      (Reachable.step pyInit "p" 'P' (Reachable.init "PYTHON" (by decide))
        (by decide) (by decide)),
   guessed_letters_spec.2.2 "a" [] 'A' (by decide)⟩

/-- Claim C9: word selection on an empty corpus fails rather than
returning a word (the fatal startup failure the design calls
`ConfigurationError`); on a non-empty corpus it returns a word, and any
returned word is a member of the corpus. -/
theorem word_selection_spec :
    (∀ r : Nat, random_choice [] r = none) ∧
      (∀ (seq : List String) (r : Nat) (w : String),
        random_choice seq r = some w → w ∈ seq) ∧
      (∀ (seq : List String) (r : Nat), seq ≠ [] →
        ∃ w, random_choice seq r = some w ∧ w ∈ seq) := by
  refine ⟨fun r => rfl, ?_, ?_⟩
  · intro seq r w h
    unfold random_choice at h
    split_ifs at h
    exact List.get?_mem h
  · intro seq r hne
    have hpos : 0 < seq.length := List.length_pos.mpr hne
    have hlt : r % seq.length < seq.length := Nat.mod_lt _ hpos
    refine ⟨seq.get ⟨r % seq.length, hlt⟩, ?_, List.get_mem ..⟩
    unfold random_choice
    rw [if_neg (by simpa using hne)]
    exact List.get?_eq_get hlt

/-- Claim C9, witness: selection from the actual corpus succeeds with a
corpus word. -/
theorem word_selection_spec_witness :
    "PYTHON" ∈ WORD_LIST ∧
      ∃ w, random_choice WORD_LIST 0 = some w ∧ w ∈ WORD_LIST :=
  ⟨word_selection_spec.2.1 WORD_LIST 0 "PYTHON" (by decide),
   word_selection_spec.2.2 WORD_LIST 0 (by decide)⟩

/-- Claim C10: at every reachable state the guessed-letter set contains no
space character, so the defensive set-minus-space filter of the
guessed-letters display is the identity and the displayed line is the
comma-space join of the ascending sort of the full set. -/
theorem space_filter_spec (s : GameState) (hs : Reachable s) :
    s.guessed_letters.filter (fun c => decide (c ≠ ' ')) = s.guessed_letters ∧
      guessed_letters_line s.guessed_letters =
        " Guessed Letters: "
          ++ pyJoin ", " ((pySorted s.guessed_letters).map (fun c => (⟨[c]⟩ : String))) := by
  obtain ⟨-, hletters, -, -, -⟩ := reachable_inv hs
  have hfilter : s.guessed_letters.filter (fun c => decide (c ≠ ' ')) =
      s.guessed_letters := by
    apply List.filter_eq_self.mpr
    intro c hc
    have := (hletters c hc).1
    simp only [decide_eq_true_eq]
    intro hsp
    rw [hsp] at this
    exact absurd this (by decide)
  refine ⟨hfilter, ?_⟩
  unfold guessed_letters_line
  rw [hfilter]

/-- Claim C10, witness: the filter identity evaluated after guessing 'P'
from the initial "PYTHON" state. -/
theorem space_filter_spec_witness :
    (applyGuess pyInit 'P').guessed_letters.filter (fun c => decide (c ≠ ' ')) =
      (applyGuess pyInit 'P').guessed_letters :=
  (space_filter_spec (applyGuess pyInit 'P')
    (Reachable.step pyInit "p" 'P' (Reachable.init "PYTHON" (by decide))
      (by decide) (by decide))).1
